import Mathlib

/-!
# Verification of the NIST PQC seeded RNG (`nist-pqc-seeded-rng`, src/lib.rs)

The crate implements the AES-256-CTR based deterministic RNG used to produce
known-answer-test values for the NIST PQC competition.  The generator state is
a 32-byte `key` and a 16-byte counter `v`; seeding and every output request run
the keystream of AES-256 in CTR mode (128-bit big-endian counter, the
`ctr::Ctr128BE<aes::Aes256>` cipher of the source).

Bytes are modelled as `Nat` values `< 256`; buffers as `List Nat`.  The AES-256
block cipher and the big-endian CTR keystream are embedded executably
(FIPS 197), since the source delegates to the `aes`/`ctr` crates with exactly
that semantics.  The RNG operations `from_seed`, `fill_bytes`, `next_u32`,
`next_u64`, `try_fill_bytes` and the seed conversions are translated directly
from `src/lib.rs`.
-/

set_option maxRecDepth 10000

namespace NistPqcRng

/-- Byte-wise XOR, the keystream application operation of the `ctr` crate. -/
def bxor (x y : Nat) : Nat := x ^^^ y

/-- The AES S-box (FIPS 197, Fig. 7) packed into one natural number:
byte `i` of the table sits at bits `8*i..8*i+8`. -/
def sboxTable : Nat :=
  0x16bb54b00f2d99416842e6bf0d89a18cdf2855cee9871e9b948ed9691198f8e19e1dc186b95735610ef6034866b53e708a8bbd4b1f74dde8c6b4a61c2e2578ba08ae7a65eaf4566ca94ed58d6d37c8e779e4959162acd3c25c2406490a3a32e0db0b5ede14b8ee4688902a22dc4f816073195d643d7ea7c41744975fec130ccdd2f3ff1021dab6bcf5389d928f40a351a89f3c507f02f94585334d43fbaaefd0cf584c4a39becb6a5bb1fc20ed00d153842fe329b3d63b52a05a6e1b1a2c830975b227ebe28012079a059618c323c7041531d871f1e5a534ccf73f362693fdb7c072a49cafa2d4adf04759fa7dc982ca76abd7fe2b670130c56f6bf27b777c63

/-- S-box lookup: byte substitution of FIPS 197. -/
def sbox (b : Nat) : Nat := (sboxTable >>> (8 * b)) &&& 0xff

/-- Multiplication by `x` in GF(2^8) with the AES polynomial `0x11b`. -/
def xtime (b : Nat) : Nat := if b < 0x80 then 2 * b else (2 * b) ^^^ 0x11b

/-- SubBytes: apply the S-box to every state byte. -/
def subBytes (s : List Nat) : List Nat := s.map sbox

/-- ShiftRows on the 16-byte state in column-major order (byte `4*c+r` is row
`r`, column `c`): row `r` is rotated left by `r` positions. -/
def shiftRows (s : List Nat) : List Nat :=
  (List.range 16).map (fun i => s.getD (4 * ((i / 4 + i % 4) % 4) + i % 4) 0)

/-- MixColumns on one 4-byte column (FIPS 197, §5.1.3). -/
def mixColumn : List Nat → List Nat
  | [a, b, c, d] =>
    [xtime a ^^^ (xtime b ^^^ b) ^^^ c ^^^ d,
     a ^^^ xtime b ^^^ (xtime c ^^^ c) ^^^ d,
     a ^^^ b ^^^ xtime c ^^^ (xtime d ^^^ d),
     (xtime a ^^^ a) ^^^ b ^^^ c ^^^ xtime d]
  | l => l

/-- MixColumns applied to each 4-byte column of the state. -/
def mixColumns : List Nat → List Nat
  | a :: b :: c :: d :: rest => mixColumn [a, b, c, d] ++ mixColumns rest
  | _ => []

/-- AddRoundKey: XOR the round key into the state. -/
def addRoundKey (rk s : List Nat) : List Nat := List.zipWith bxor s rk

/-- Rotate a 4-byte word left by one byte (FIPS 197 RotWord). -/
def rotWord : List Nat → List Nat
  | a :: rest => rest ++ [a]
  | [] => []

/-- Apply the S-box to each byte of a word (FIPS 197 SubWord). -/
def subWord (w : List Nat) : List Nat := w.map sbox

/-- Round constants of the key schedule; for AES-256 only indices 1..7 occur. -/
def rcon (i : Nat) : Nat := [0, 0x01, 0x02, 0x04, 0x08, 0x10, 0x20, 0x40, 0x80, 0x1b, 0x36].getD i 0

/-- One step of the AES-256 key schedule: append the next 4-byte word, given
the words produced so far (FIPS 197, §5.2 with `Nk = 8`). -/
def nextKeyWord (ws : List (List Nat)) : List (List Nat) :=
  let i := ws.length
  let wPrev := ws.getD (i - 1) []
  let wBack := ws.getD (i - 8) []
  let temp :=
    if i % 8 == 0 then
      List.zipWith bxor (subWord (rotWord wPrev)) [rcon (i / 8), 0, 0, 0]
    else if i % 8 == 4 then subWord wPrev
    else wPrev
  ws ++ [List.zipWith bxor wBack temp]

/-- Iterate the key-schedule step `n` times. -/
def expandFrom (n : Nat) (ws : List (List Nat)) : List (List Nat) :=
  match n with
  | 0 => ws
  | n + 1 => expandFrom n (nextKeyWord ws)

/-- AES-256 key expansion: the 32-byte key yields 60 4-byte words
(8 initial words, 52 generated ones). -/
def keyExpansion (key : List Nat) : List (List Nat) :=
  expandFrom 52 ((List.range 8).map (fun i => (key.drop (4 * i)).take 4))

/-- Round key `r`: words `4r..4r+3` of the schedule, flattened to 16 bytes. -/
def roundKey (ws : List (List Nat)) (r : Nat) : List Nat :=
  ((ws.drop (4 * r)).take 4).flatten

/-- One middle round of AES encryption. -/
def aesRound (rk s : List Nat) : List Nat :=
  addRoundKey rk (mixColumns (shiftRows (subBytes s)))

/-- The final AES round (no MixColumns). -/
def aesFinalRound (rk s : List Nat) : List Nat :=
  addRoundKey rk (shiftRows (subBytes s))

/-- AES-256 block encryption given the expanded key schedule: initial
AddRoundKey, 13 middle rounds, final round (FIPS 197, §5.1 with `Nr = 14`). -/
def encryptBlockW (ws : List (List Nat)) (block : List Nat) : List Nat :=
  aesFinalRound (roundKey ws 14)
    ((List.range 13).foldl (fun s r => aesRound (roundKey ws (r + 1)) s)
      (addRoundKey (roundKey ws 0) block))

/-- The 16 big-endian bytes of a 128-bit counter value. -/
def beBytes16 (n : Nat) : List Nat :=
  (List.range 16).map (fun i => (n >>> (8 * (15 - i))) &&& 0xff)

/-- A byte buffer read as a big-endian natural number (the counter
interpretation of `ctr::Ctr128BE`). -/
def beNat (bytes : List Nat) : Nat := bytes.foldl (fun acc b => acc * 256 + b) 0

/-- The first `n` 16-byte blocks of the AES-256-CTR keystream under `key` and
initial counter `v`, concatenated: block `i` is the encryption of counter
`v + i` (mod `2^128`), as in `ctr::Ctr128BE`. -/
def ksBlocks (key v : List Nat) (n : Nat) : List Nat :=
  let ws := keyExpansion key
  let vN := beNat v
  ((List.range n).map (fun i => encryptBlockW ws (beBytes16 ((vN + i) % 2 ^ 128)))).flatten

/-- The `len` keystream bytes at positions `start..start+len`. -/
def ksRange (key v : List Nat) (start len : Nat) : List Nat :=
  ((ksBlocks key v ((start + len + 15) / 16)).drop start).take len

/-! ## The RNG of `src/lib.rs` -/

/-- Length of the internal AES key (`KEY_LENGTH` in the source). -/
def KEY_LENGTH : Nat := 32

/-- Length of the internal counter value (`V_LENGTH` in the source). -/
def V_LENGTH : Nat := 16

/-- Seed length (`SEED_LENGTH = KEY_LENGTH + V_LENGTH` in the source). -/
def SEED_LENGTH : Nat := KEY_LENGTH + V_LENGTH

/-- A list of `n` zero bytes: a zero-initialised buffer. -/
def zeros (n : Nat) : List Nat := List.replicate n 0

/-- The state of `NistPqcAes256CtrRng`: a 32-byte AES key and a 16-byte
counter value. -/
structure RngState where
  key : List Nat
  v : List Nat
deriving DecidableEq, Repr

/-- `SeedableRng::from_seed`: run AES-256-CTR with all-zero key and counter,
seek to byte 16, XOR the keystream into the 48 seed bytes in place, then take
the first 32 transformed bytes as the key and the last 16 as the counter. -/
def from_seed (seed : List Nat) : RngState :=
  let transformed := List.zipWith bxor seed (ksRange (zeros KEY_LENGTH) (zeros V_LENGTH) 16 SEED_LENGTH)
  { key := transformed.take KEY_LENGTH, v := transformed.drop KEY_LENGTH }

/-- `RngCore::fill_bytes`: instantiate AES-256-CTR with the current state,
seek to byte 16, XOR the keystream into `dest` in place (position becomes
`16 + dest.length`), seek to `(pos + (V_LENGTH-1)) / V_LENGTH * V_LENGTH`,
then read 32 keystream bytes as the new key and 16 more as the new counter
(applying the keystream to zeroed buffers).  Returns the updated buffer and
the successor state. -/
def fill_bytes (s : RngState) (dest : List Nat) : List Nat × RngState :=
  let out := List.zipWith bxor dest (ksRange s.key s.v 16 dest.length)
  let pos := (16 + dest.length + (V_LENGTH - 1)) / V_LENGTH * V_LENGTH
  let newKey := ksRange s.key s.v pos KEY_LENGTH
  let newV := ksRange s.key s.v (pos + KEY_LENGTH) V_LENGTH
  (out, { key := newKey, v := newV })

/-- A little-endian byte buffer read as a natural number
(`u32::from_le_bytes` / `u64::from_le_bytes`). -/
def fromLeBytes (bytes : List Nat) : Nat := bytes.foldr (fun b acc => acc * 256 + b) 0

/-- `RngCore::next_u32`: fill a zeroed 4-byte buffer and read it
little-endian. -/
def next_u32 (s : RngState) : Nat × RngState :=
  let r := fill_bytes s (zeros 4)
  (fromLeBytes r.1, r.2)

/-- `RngCore::next_u64`: fill a zeroed 8-byte buffer and read it
little-endian. -/
def next_u64 (s : RngState) : Nat × RngState :=
  let r := fill_bytes s (zeros 8)
  (fromLeBytes r.1, r.2)

/-- `RngCore::try_fill_bytes`: delegate to `fill_bytes` and report `Ok`. -/
def try_fill_bytes (s : RngState) (dest : List Nat) : Except Unit (List Nat × RngState) :=
  Except.ok (fill_bytes s dest)

/-! ## Seed conversions of `src/lib.rs` -/

/-- `Seed::try_from(&[u8])`: succeeds (copying the bytes) exactly when the
slice has length `SEED_LENGTH`, otherwise the unit error. -/
def seedTryFrom (value : List Nat) : Option (List Nat) :=
  if value.length = SEED_LENGTH then some value else none

/-- `From<[u8; 48]> for NistPqcAes256CtrRng`: wrap the array into a `Seed`
and call `from_seed`. -/
def rngFromArray (value : List Nat) : RngState := from_seed value

/-- `TryFrom<&[u8]> for NistPqcAes256CtrRng`: `Seed::try_from` followed by
`from_seed`. -/
def rngTryFrom (value : List Nat) : Option RngState :=
  (seedTryFrom value).map from_seed

/-! ## Request sequences (for the determinism property) -/

/-- One output request against the generator. -/
inductive Request where
  | fill (dest : List Nat)
  | u32
  | u64
deriving DecidableEq, Repr

/-- Run a sequence of requests, collecting each request's output:
filled buffers for `fill`, the numeric result for `u32`/`u64`. -/
def runRequests (s : RngState) : List Request → List (List Nat) × RngState
  | [] => ([], s)
  | q :: rest =>
    let step : List Nat × RngState :=
      match q with
      | .fill d => fill_bytes s d
      | .u32 => let r := next_u32 s; ([r.1], r.2)
      | .u64 => let r := next_u64 s; ([r.1], r.2)
    let tail := runRequests step.2 rest
    (step.1 :: tail.1, tail.2)

/-! ## Length and algebra helper lemmas -/

lemma length_rotWord (w : List Nat) : (rotWord w).length = w.length := by
  cases w <;> simp [rotWord]

lemma length_subWord (w : List Nat) : (subWord w).length = w.length := by
  simp [subWord]

lemma length_shiftRows (s : List Nat) : (shiftRows s).length = 16 := by
  simp [shiftRows]

def goodWords (ws : List (List Nat)) : Prop :=
  8 ≤ ws.length ∧ ∀ w ∈ ws, w.length = 4

lemma getD_length_four {ws : List (List Nat)} (h : ∀ w ∈ ws, w.length = 4)
    {i : Nat} (hi : i < ws.length) : (ws.getD i []).length = 4 := by
  rw [List.getD_eq_getElem?_getD, List.getElem?_eq_getElem hi]
  exact h _ (List.getElem_mem hi)

lemma nextKeyWord_good {ws : List (List Nat)} (h : goodWords ws) : goodWords (nextKeyWord ws) := by
  obtain ⟨hlen, hall⟩ := h
  constructor
  · simp [nextKeyWord]; omega
  · intro w hw
    simp only [nextKeyWord, List.mem_append, List.mem_singleton] at hw
    rcases hw with hw | hw
    · exact hall w hw
    · subst hw
      have hPrev : (ws.getD (ws.length - 1) []).length = 4 :=
        getD_length_four hall (by omega)
      have hBack : (ws.getD (ws.length - 8) []).length = 4 :=
        getD_length_four hall (by omega)
      simp only [List.getD_eq_getElem?_getD] at hPrev hBack
      by_cases h0 : ws.length % 8 == 0
      · simp only [h0, if_pos]
        simp [List.length_zipWith, length_subWord, length_rotWord, hPrev, hBack]
      · by_cases h4 : ws.length % 8 == 4
        · simp only [h0, h4, if_neg, if_pos]
          simp [List.length_zipWith, length_subWord, hPrev, hBack]
        · simp only [h0, h4, if_neg]
          simp [List.length_zipWith, hPrev, hBack]

lemma length_nextKeyWord (ws : List (List Nat)) : (nextKeyWord ws).length = ws.length + 1 := by
  simp [nextKeyWord]

lemma expandFrom_good {ws : List (List Nat)} (h : goodWords ws) (n : Nat) :
    goodWords (expandFrom n ws) := by
  induction n generalizing ws with
  | zero => exact h
  | succ n ih => exact ih (nextKeyWord_good h)

lemma length_expandFrom (n : Nat) (ws : List (List Nat)) :
    (expandFrom n ws).length = ws.length + n := by
  induction n generalizing ws with
  | zero => rfl
  | succ n ih => simp [expandFrom, ih, length_nextKeyWord]; omega

lemma keyExpansion_good {key : List Nat} (h : key.length = 32) :
    goodWords (keyExpansion key) := by
  apply expandFrom_good
  constructor
  · simp
  · intro w hw
    simp only [List.mem_map, List.mem_range] at hw
    obtain ⟨i, hi, rfl⟩ := hw
    simp [List.length_take, List.length_drop, h]
    omega

lemma length_keyExpansion (key : List Nat) :
    (keyExpansion key).length = 60 := by
  simp [keyExpansion, length_expandFrom]

lemma length_roundKey {ws : List (List Nat)} (hgood : goodWords ws)
    (hlen : ws.length = 60) {r : Nat} (hr : r ≤ 14) : (roundKey ws r).length = 16 := by
  obtain ⟨-, hall⟩ := hgood
  rw [roundKey, List.length_flatten]
  have hsub : ∀ w ∈ (ws.drop (4 * r)).take 4, w.length = 4 := by
    intro w hw
    exact hall w (List.mem_of_mem_drop (List.mem_of_mem_take hw))
  have hlen4 : ((ws.drop (4 * r)).take 4).length = 4 := by
    simp [List.length_take, List.length_drop, hlen]
    omega
  rw [List.sum_eq_card_nsmul _ 4 ?_]
  · simp only [List.length_map, hlen4, smul_eq_mul]
  · intro x hx
    simp only [List.mem_map] at hx
    obtain ⟨w, hw, rfl⟩ := hx
    exact hsub w hw

lemma length_encryptBlockW {key : List Nat} (h : key.length = 32) (block : List Nat) :
    (encryptBlockW (keyExpansion key) block).length = 16 := by
  rw [encryptBlockW, aesFinalRound, addRoundKey, List.length_zipWith, length_shiftRows,
    length_roundKey (keyExpansion_good h) (length_keyExpansion key) (by omega)]
  simp

lemma length_ksBlocks {key : List Nat} (h : key.length = 32) (v : List Nat) (n : Nat) :
    (ksBlocks key v n).length = 16 * n := by
  rw [ksBlocks, List.length_flatten]
  simp only [List.map_map]
  rw [List.sum_eq_card_nsmul _ 16 ?_]
  · simp [Nat.mul_comm]
  · intro x hx
    simp only [List.mem_map, Function.comp, List.mem_range] at hx
    obtain ⟨i, hi, rfl⟩ := hx
    exact length_encryptBlockW h _

lemma length_ksRange {key : List Nat} (h : key.length = 32) (v : List Nat) (start len : Nat) :
    (ksRange key v start len).length = len := by
  rw [ksRange, List.length_take, List.length_drop, length_ksBlocks h]
  omega

lemma zipWith_bxor_zeros {l : List Nat} {n : Nat} (h : l.length = n) :
    List.zipWith bxor (zeros n) l = l := by
  induction l generalizing n with
  | nil => subst h; rfl
  | cons b t ih =>
    subst h
    simp only [zeros, List.length_cons, List.replicate_succ, List.zipWith_cons_cons]
    have ht := ih rfl
    simp only [zeros] at ht
    rw [ht]
    simp [bxor]

lemma fromLeBytes_eq_sum (l : List Nat) :
    fromLeBytes l = ∑ i ∈ Finset.range l.length, l.getD i 0 * 256 ^ i := by
  induction l with
  | nil => rfl
  | cons b t ih =>
    have hL : fromLeBytes (b :: t) = fromLeBytes t * 256 + b := rfl
    rw [hL, ih, List.length_cons, Finset.sum_range_succ']
    simp only [List.getD_cons_succ, List.getD_cons_zero, pow_zero, mul_one, pow_succ,
      ← mul_assoc]
    rw [Finset.sum_mul]

lemma length_fill_out {s : RngState} (hk : s.key.length = 32) (dest : List Nat) :
    (fill_bytes s dest).1.length = dest.length := by
  simp only [fill_bytes, List.length_zipWith, length_ksRange hk]
  omega

/-- C3: `from_seed` XORs the keystream of the all-zero-key, all-zero-counter
AES-256-CTR instance, taken from byte offset 16, into the 48 seed bytes, and
splits the result into the 32-byte key and the 16-byte counter; every 48-byte
seed is accepted (the function is total) and the resulting state has the fixed
field lengths. -/
theorem from_seed_spec (seed : List Nat) (h : seed.length = SEED_LENGTH) :
    (from_seed seed).key =
      (List.zipWith bxor seed (ksRange (zeros KEY_LENGTH) (zeros V_LENGTH) 16 SEED_LENGTH)).take KEY_LENGTH ∧
    (from_seed seed).v =
      (List.zipWith bxor seed (ksRange (zeros KEY_LENGTH) (zeros V_LENGTH) 16 SEED_LENGTH)).drop KEY_LENGTH ∧
    (from_seed seed).key.length = KEY_LENGTH ∧
    (from_seed seed).v.length = V_LENGTH := by
  have hks : (ksRange (zeros 32) (zeros 16) 16 48).length = 48 :=
    length_ksRange (by simp [zeros]) _ _ _
  refine ⟨rfl, rfl, ?_, ?_⟩ <;>
    simp [from_seed, List.length_take, List.length_drop, List.length_zipWith,
      h, SEED_LENGTH, KEY_LENGTH, V_LENGTH, hks]

/-- C3 witness: the all-zero 48-byte seed satisfies the hypothesis and the
conclusion. -/
theorem from_seed_spec_witness :
    (zeros 48).length = SEED_LENGTH ∧
    ((from_seed (zeros 48)).key.length = KEY_LENGTH ∧ (from_seed (zeros 48)).v.length = V_LENGTH) := by
  refine ⟨by decide, ?_⟩
  have h := from_seed_spec (zeros 48) (by decide)
  exact ⟨h.2.2.1, h.2.2.2⟩

/-- C4: after producing the output (keystream position `16 + N`), `fill_bytes`
derives the successor state from the keystream position rounded up to the next
multiple of 16: the new key is the 32 keystream bytes there, the new counter
the following 16 bytes; the position used is the smallest multiple of 16 that
is at least `16 + N` (so no rounding happens when `16 + N` is aligned). -/
theorem fill_bytes_state_advance (s : RngState) (dest : List Nat) :
    (fill_bytes s dest).2.key =
      ksRange s.key s.v ((16 + dest.length + (V_LENGTH - 1)) / V_LENGTH * V_LENGTH) KEY_LENGTH ∧
    (fill_bytes s dest).2.v =
      ksRange s.key s.v ((16 + dest.length + (V_LENGTH - 1)) / V_LENGTH * V_LENGTH + KEY_LENGTH) V_LENGTH ∧
    (16 + dest.length + (V_LENGTH - 1)) / V_LENGTH * V_LENGTH % 16 = 0 ∧
    16 + dest.length ≤ (16 + dest.length + (V_LENGTH - 1)) / V_LENGTH * V_LENGTH ∧
    (16 + dest.length + (V_LENGTH - 1)) / V_LENGTH * V_LENGTH < 16 + dest.length + 16 := by
  refine ⟨rfl, rfl, ?_, ?_, ?_⟩ <;> · simp only [V_LENGTH]; omega

/-- C10: the successor state of `fill_bytes` depends only on the current state
and on the number of 16-byte blocks covering the request, never on the
destination buffer's contents. -/
theorem fill_state_depends_only_on_blocks (s : RngState) (d1 d2 : List Nat)
    (h : (d1.length + 15) / 16 = (d2.length + 15) / 16) :
    (fill_bytes s d1).2 = (fill_bytes s d2).2 := by
  have hpos : (16 + d1.length + (V_LENGTH - 1)) / V_LENGTH * V_LENGTH
      = (16 + d2.length + (V_LENGTH - 1)) / V_LENGTH * V_LENGTH := by
    simp only [V_LENGTH]; omega
  simp only [fill_bytes, hpos]

/-- C10 witness: a 1-byte and a 2-byte request (same single block, different
contents) lead to the same successor state. -/
theorem fill_state_depends_only_on_blocks_witness :
    (1 + 15) / 16 = (2 + 15) / 16 ∧
    (fill_bytes ⟨zeros 32, zeros 16⟩ [0]).2 = (fill_bytes ⟨zeros 32, zeros 16⟩ [5, 5]).2 :=
  ⟨by decide, fill_state_depends_only_on_blocks ⟨zeros 32, zeros 16⟩ [0] [5, 5] (by decide)⟩

/-- C5: converting a byte slice to a `Seed` (and hence to a generator) fails
with the length error exactly when the length differs from 48, succeeds
exactly when it is 48, and the generator conversion is the seed conversion
followed by `from_seed`. -/
theorem seed_length_enforcement (l : List Nat) :
    (seedTryFrom l).isSome = (l.length == SEED_LENGTH) ∧
    (rngTryFrom l).isSome = (l.length == SEED_LENGTH) ∧
    (seedTryFrom l = none ↔ l.length ≠ SEED_LENGTH) ∧
    (rngTryFrom l = none ↔ l.length ≠ SEED_LENGTH) ∧
    rngTryFrom l = (seedTryFrom l).map from_seed := by
  refine ⟨?_, ?_, ?_, ?_, rfl⟩ <;>
    by_cases h : l.length = SEED_LENGTH <;> simp [seedTryFrom, rngTryFrom, h]

/-- C6: the three construction paths (from a `Seed`, from a 48-byte array,
from a 48-byte slice) produce the same generator state. -/
theorem construction_paths_agree (bytes : List Nat) (h : bytes.length = SEED_LENGTH) :
    rngFromArray bytes = from_seed bytes ∧ rngTryFrom bytes = some (from_seed bytes) :=
  ⟨rfl, by simp [rngTryFrom, seedTryFrom, h]⟩

/-- C6 witness: the three paths agree on the all-zero 48-byte value. -/
theorem construction_paths_agree_witness :
    (zeros 48).length = SEED_LENGTH ∧
    (rngFromArray (zeros 48) = from_seed (zeros 48) ∧
     rngTryFrom (zeros 48) = some (from_seed (zeros 48))) :=
  ⟨by decide, construction_paths_agree (zeros 48) (by decide)⟩

/-- C9: `try_fill_bytes` always returns `Ok` and its effect (output buffer and
successor state) is exactly that of `fill_bytes`. -/
theorem try_fill_bytes_spec (s : RngState) (dest : List Nat) :
    try_fill_bytes s dest = Except.ok (fill_bytes s dest) ∧
    (try_fill_bytes s dest).isOk = true :=
  ⟨rfl, rfl⟩

/-- C7: `next_u32` and `next_u64` fill a zero-initialised 4- resp. 8-byte
buffer through `fill_bytes`, return its little-endian positional value, and
leave the generator in exactly the successor state of that `fill_bytes`
call. -/
theorem next_u32_u64_spec (s : RngState) (hk : s.key.length = KEY_LENGTH) :
    next_u32 s = (fromLeBytes (fill_bytes s (zeros 4)).1, (fill_bytes s (zeros 4)).2) ∧
    next_u64 s = (fromLeBytes (fill_bytes s (zeros 8)).1, (fill_bytes s (zeros 8)).2) ∧
    (next_u32 s).1 = ∑ i ∈ Finset.range 4, (fill_bytes s (zeros 4)).1.getD i 0 * 256 ^ i ∧
    (next_u64 s).1 = ∑ i ∈ Finset.range 8, (fill_bytes s (zeros 8)).1.getD i 0 * 256 ^ i := by
  have hk32 : s.key.length = 32 := by simpa [KEY_LENGTH] using hk
  have h4 : (fill_bytes s (zeros 4)).1.length = 4 := by
    rw [length_fill_out hk32]; simp [zeros]
  have h8 : (fill_bytes s (zeros 8)).1.length = 8 := by
    rw [length_fill_out hk32]; simp [zeros]
  refine ⟨?_, ?_, ?_, ?_⟩
  · simp only [next_u32]
  · simp only [next_u64]
  · simp only [next_u32]
    rw [fromLeBytes_eq_sum, h4]
  · simp only [next_u64]
    rw [fromLeBytes_eq_sum, h8]

/-- C7 witness: the specification holds at the all-zero state. -/
theorem next_u32_u64_spec_witness :
    (RngState.mk (zeros 32) (zeros 16)).key.length = KEY_LENGTH ∧
    next_u32 ⟨zeros 32, zeros 16⟩ =
      (fromLeBytes (fill_bytes ⟨zeros 32, zeros 16⟩ (zeros 4)).1,
       (fill_bytes ⟨zeros 32, zeros 16⟩ (zeros 4)).2) :=
  ⟨by decide, (next_u32_u64_spec ⟨zeros 32, zeros 16⟩ (by decide)).1⟩

/-- C8: the pair (key, counter) fully determines all future behaviour: two
generators whose key and counter bytes agree produce identical outputs and
pass through identical states on any sequence of requests; there is no other
hidden state. -/
theorem determinism_no_hidden_state (s1 s2 : RngState) (reqs : List Request)
    (hkey : s1.key = s2.key) (hv : s1.v = s2.v) :
    runRequests s1 reqs = runRequests s2 reqs := by
  obtain ⟨k1, v1⟩ := s1
  obtain ⟨k2, v2⟩ := s2
  simp only at hkey hv
  subst hkey
  subst hv
  rfl

/-- C8 witness: two identically seeded generators behave identically on a
concrete request sequence. -/
theorem determinism_no_hidden_state_witness :
    (RngState.mk (zeros 32) (zeros 16)).key = (RngState.mk (List.replicate 32 0) (zeros 16)).key ∧
    (RngState.mk (zeros 32) (zeros 16)).v = (RngState.mk (List.replicate 32 0) (zeros 16)).v ∧
    runRequests ⟨zeros 32, zeros 16⟩ [Request.u32, Request.fill [1, 2, 3]] =
      runRequests ⟨List.replicate 32 0, zeros 16⟩ [Request.u32, Request.fill [1, 2, 3]] :=
  ⟨rfl, rfl,
    determinism_no_hidden_state ⟨zeros 32, zeros 16⟩ ⟨List.replicate 32 0, zeros 16⟩
      [Request.u32, Request.fill [1, 2, 3]] rfl rfl⟩

/-- C2 counterexample: the claim that `fill_bytes` writes the raw keystream
bytes regardless of the buffer's prior contents is false: on the all-zero
state and the 1-byte buffer `[0xff]`, the byte written differs from the raw
keystream byte at offset 16. -/
theorem fill_bytes_raw_keystream_cex :
    (fill_bytes ⟨zeros 32, zeros 16⟩ [0xff]).1 ≠
      ksRange (zeros 32) (zeros 16) 16 1 := by decide

/-- C2 (amended): `fill_bytes` XORs the keystream bytes at offsets
`16..16+N` into the destination buffer, so the bytes written are the XOR of
the prior contents with the raw keystream, and they equal the raw keystream
exactly when the buffer was zero-initialised. -/
theorem fill_bytes_xors_keystream (s : RngState) (dest : List Nat)
    (hk : s.key.length = KEY_LENGTH) :
    (fill_bytes s dest).1 = List.zipWith bxor dest (ksRange s.key s.v 16 dest.length) ∧
    (fill_bytes s (zeros dest.length)).1 = ksRange s.key s.v 16 dest.length := by
  have hk32 : s.key.length = 32 := by simpa [KEY_LENGTH] using hk
  refine ⟨rfl, ?_⟩
  show List.zipWith bxor (zeros dest.length) (ksRange s.key s.v 16 (zeros dest.length).length) = _
  have hz : (zeros dest.length).length = dest.length := by simp [zeros]
  rw [hz]
  exact zipWith_bxor_zeros (length_ksRange hk32 _ _ _)

/-- C2 witness: at the all-zero state with an 8-byte buffer, the output is
the XOR of the buffer with the keystream, and a zeroed buffer receives the
raw keystream. -/
theorem fill_bytes_xors_keystream_witness :
    (RngState.mk (zeros 32) (zeros 16)).key.length = KEY_LENGTH ∧
    ((fill_bytes ⟨zeros 32, zeros 16⟩ [0xff]).1 =
      List.zipWith bxor [0xff]
        (ksRange (RngState.mk (zeros 32) (zeros 16)).key (RngState.mk (zeros 32) (zeros 16)).v 16 [0xff].length) ∧
     (fill_bytes ⟨zeros 32, zeros 16⟩ (zeros [0xff].length)).1 =
      ksRange (RngState.mk (zeros 32) (zeros 16)).key (RngState.mk (zeros 32) (zeros 16)).v 16 [0xff].length) :=
  ⟨by decide, fill_bytes_xors_keystream ⟨zeros 32, zeros 16⟩ [0xff] (by decide)⟩

/-- C1: the reference fixed vector: seeding with the all-zero 48-byte seed
yields the key `53 0f 8a fb ...`; filling an 8-byte zeroed buffer from that
state writes `91 61 8f e9 9a 8f 94 20` and leaves the key
`19 07 8a 9d ...`; filling a further 4-byte zeroed buffer writes
`f9 c1 29 94`. -/
theorem zero_seed_reference_vector :
    (from_seed (zeros 48)).key =
      [0x53, 0x0f, 0x8a, 0xfb, 0xc7, 0x45, 0x36, 0xb9, 0xa9, 0x63, 0xb4, 0xf1, 0xc4, 0xcb,
       0x73, 0x8b, 0xce, 0xa7, 0x40, 0x3d, 0x4d, 0x60, 0x6b, 0x6e, 0x07, 0x4e, 0xc5, 0xd3,
       0xba, 0xf3, 0x9d, 0x18] ∧
    (fill_bytes (from_seed (zeros 48)) (zeros 8)).1 =
      [0x91, 0x61, 0x8f, 0xe9, 0x9a, 0x8f, 0x94, 0x20] ∧
    (fill_bytes (from_seed (zeros 48)) (zeros 8)).2.key =
      [0x19, 0x07, 0x8a, 0x9d, 0x3c, 0xa6, 0xb2, 0xa0, 0x01, 0xae, 0xc0, 0xb9, 0xe0, 0x7e,
       0x68, 0x0b, 0xaf, 0x44, 0x43, 0x92, 0x2a, 0x11, 0x91, 0x78, 0xfb, 0x81, 0x91, 0xd4,
       0xc9, 0xd0, 0xa5, 0x8f] ∧
    (fill_bytes (fill_bytes (from_seed (zeros 48)) (zeros 8)).2 (zeros 4)).1 =
      [0xf9, 0xc1, 0x29, 0x94] := by
  decide

end NistPqcRng
